import Mathlib

/-!
Verification of the Miden basic-wallet demo repository: the commit/verify/decode
pipeline of the transaction script, the wallet asset-movement component, the
p2id note-consumption guard, and the counter contract.

Source files embedded:
  * `basic-wallet-tx-script/src/lib.rs` — transaction script `run`
  * `basic-wallet/src/lib.rs` — `receive_asset`, `move_asset_to_note`
  * `p2id-note/src/lib.rs` — note script `run`
  * `counter-contract/src/lib.rs` — `get_count`, `increment_count`
  * `counter-contract-note/src/lib.rs` — note script `run`
  * `scripts/src/wallet.rs` — host-side commitment builder in `send_asset_to_account`

Environment primitives provided by the miden SDK (advice channel, vault,
storage map, note factory) are not part of the repository; they are modelled
from the specification's interface sections (marked `Modelled from the spec:`).
-/

namespace MidenDemo

/-- The Miden field modulus (Goldilocks prime 2^64 - 2^32 + 1). -/
def P : Nat := 2 ^ 64 - 2 ^ 32 + 1

/-- A field element: integer modulo the fixed prime; all arithmetic wraps at
the modulus. -/
abbrev Felt : Type := ZMod P

/-- An ordered 4-tuple of field elements, used for digests, identifiers,
recipients, and packed asset/parameter records. -/
structure Word where
  w0 : Felt
  w1 : Felt
  w2 : Felt
  w3 : Felt
deriving DecidableEq, Repr

/-- The four field elements of a `Word`, in order. -/
def Word.toList (w : Word) : List Felt := [w.w0, w.w1, w.w2, w.w3]

/-- Element-order reversal of a `Word` (the host applies this to the digest
before passing it as the public argument: `commitment.reverse()` in
`scripts/src/wallet.rs`). -/
def Word.reverse (w : Word) : Word := ⟨w.w3, w.w2, w.w1, w.w0⟩

/-- Transfer parameters as laid out in the canonical 12-element encoding.
`note_type` and `execution_hint` are carried as raw field-element codes, which
is how both the host encoding (`scripts/src/wallet.rs` lines 177-187) and the
guest decoding (`basic-wallet-tx-script/src/lib.rs` lines 49-61) handle them. -/
structure NoteParameters where
  tag : Felt
  aux : Felt
  note_type : Felt
  execution_hint : Felt
  recipient : Word
  asset : Word
deriving DecidableEq, Repr

/-- Host-side canonical encoding, from `scripts/src/wallet.rs` lines 177-187:
`input = vec![tag, aux, note_type, execution_hint]` followed by
`input.extend(recipient_digest)` and `input.extend(asset_arr)`. -/
def encodeParams (p : NoteParameters) : List Felt :=
  [p.tag, p.aux, p.note_type, p.execution_hint] ++ p.recipient.toList ++ p.asset.toList

/-- Input layout constants, from `basic-wallet-tx-script/src/lib.rs` lines 32-39. -/
def TAG_INDEX : Nat := 0
def AUX_INDEX : Nat := 1
def NOTE_TYPE_INDEX : Nat := 2
def EXECUTION_HINT_INDEX : Nat := 3
def RECIPIENT_START : Nat := 4
def RECIPIENT_END : Nat := 8
def ASSET_START : Nat := 8
def ASSET_END : Nat := 12

/-- Guest-side decoding at fixed offsets, from `basic-wallet-tx-script/src/lib.rs`
lines 49-61: `input[TAG_INDEX]`, ..., `input[RECIPIENT_START..RECIPIENT_END]`,
`input[ASSET_START..ASSET_END]`.  Rust indexing panics when the input is too
short, hence the `Option`. -/
def decodeParams (input : List Felt) : Option NoteParameters :=
  match input.get? TAG_INDEX, input.get? AUX_INDEX, input.get? NOTE_TYPE_INDEX,
        input.get? EXECUTION_HINT_INDEX,
        input.get? RECIPIENT_START, input.get? (RECIPIENT_START + 1),
        input.get? (RECIPIENT_START + 2), input.get? (RECIPIENT_START + 3),
        input.get? ASSET_START, input.get? (ASSET_START + 1),
        input.get? (ASSET_START + 2), input.get? (ASSET_START + 3) with
  | some tag, some aux, some nt, some eh,
    some r0, some r1, some r2, some r3,
    some a0, some a1, some a2, some a3 =>
      some ⟨tag, aux, nt, eh, ⟨r0, r1, r2, r3⟩, ⟨a0, a1, a2, a3⟩⟩
  | _, _, _, _, _, _, _, _, _, _, _, _ => none

/-- The advice channel: an untrusted, read-only, pre-populated key→value
side-input keyed by hash digest (spec section 4.2). -/
def AdviceMap : Type := List (Word × List Felt)

/-- Lookup of the entry stored under a digest. -/
def adviceGet (adv : AdviceMap) (d : Word) : Option (List Felt) :=
  match adv with
  | [] => none
  | (k, v) :: rest => if k = d then some v else adviceGet rest d

/-- Modelled from the spec: `adv_push_mapvaln` / `lengthOf(digest)` of section
4.2 — the count of field elements stored under `digest`; fails (absent-entry
error) if no entry exists.  The primitive itself is provided by the miden SDK
(`miden::intrinsics::advice::adv_push_mapvaln`), not by this repository. -/
def adv_push_mapvaln (adv : AdviceMap) (d : Word) : Option Nat :=
  (adviceGet adv d).map List.length

/-- Modelled from the spec: `adv_load_preimage(words, digest)` of section 4.2 —
returns the `words * 4` stored field elements and, as a side effect, recomputes
the hash over the returned elements, aborting execution immediately if the
recomputed value differs from `digest`.  The primitive itself is provided by
the miden SDK (`miden::adv_load_preimage`), not by this repository.  The hash
`H` (Rpo256 in the source) is kept as a parameter. -/
def adv_load_preimage (H : List Felt → Word) (adv : AdviceMap)
    (words : Nat) (digest : Word) : Option (List Felt) :=
  match adviceGet adv digest with
  | none => none
  | some stored =>
      let elems := stored.take (words * 4)
      if elems.length = words * 4 ∧ H elems = digest then some elems else none

/-! ## Assets and the account vault (spec sections 3 and 4.5) -/

/-- An asset: fungible (faucet id + amount) or non-fungible (spec section 3). -/
inductive Asset where
  | fungible (faucet_id : Word) (amount : Nat)
  | nonFungible (id : Word) (data : Word)
deriving DecidableEq

/-- The fungible amount an asset contributes to a given faucet id. -/
def Asset.amountOf : Asset → Word → Nat
  | .fungible f amt, g => if f = g then amt else 0
  | .nonFungible _ _, _ => 0

/-- Total fungible amount held for a faucet id in a list of assets. -/
def vaultAmount : List Asset → Word → Nat
  | [], _ => 0
  | a :: rest, f => a.amountOf f + vaultAmount rest f

/-- Merge a fungible amount into the entry for its faucet (same-faucet amounts
accumulate), appending a fresh entry when none exists. -/
def addFungible : List Asset → Word → Nat → List Asset
  | [], f, amt => [.fungible f amt]
  | .fungible g a :: rest, f, amt =>
      if g = f then .fungible g (a + amt) :: rest
      else .fungible g a :: addFungible rest f amt
  | b :: rest, f, amt => b :: addFungible rest f amt

/-- Modelled from the spec: `add_asset` of section 4.5 — merges into the
account vault; same-faucet fungible amounts accumulate.  The primitive itself
is `miden::account::add_asset` of the miden SDK, not in this repository. -/
def add_asset (v : List Asset) (a : Asset) : List Asset :=
  match a with
  | .fungible f amt => addFungible v f amt
  | .nonFungible _ _ => v ++ [a]

/-- Remove a fungible amount from the entry for its faucet; `none` (abort)
when the faucet is absent or holds an insufficient amount. -/
def removeFungible : List Asset → Word → Nat → Option (List Asset)
  | [], _, _ => none
  | .fungible g a :: rest, f, amt =>
      if g = f then
        if amt ≤ a then some (.fungible g (a - amt) :: rest) else none
      else (removeFungible rest f amt).map (.fungible g a :: ·)
  | b :: rest, f, amt => (removeFungible rest f amt).map (b :: ·)

/-- Remove a non-fungible asset; `none` (abort) when absent. -/
def removeNonFungible : List Asset → Word → Word → Option (List Asset)
  | [], _, _ => none
  | .nonFungible i d :: rest, id, dat =>
      if i = id ∧ d = dat then some rest
      else (removeNonFungible rest id dat).map (.nonFungible i d :: ·)
  | b :: rest, id, dat => (removeNonFungible rest id dat).map (b :: ·)

/-- Modelled from the spec: `remove_asset` of section 4.5 — removes and
returns the matching asset/amount; aborts if insufficient/absent.  The
primitive itself is `miden::account::remove_asset` of the miden SDK, not in
this repository. -/
def remove_asset (v : List Asset) (a : Asset) : Option (Asset × List Asset) :=
  match a with
  | .fungible f amt => (removeFungible v f amt).map (fun r => (.fungible f amt, r))
  | .nonFungible i d => (removeNonFungible v i d).map (fun r => (.nonFungible i d, r))

/-- State touched by the wallet component within one execution: the account
vault and the assets attached to each note created so far (indexed by
`NoteIdx`). -/
structure WalletState where
  vault : List Asset
  notes : List (List Asset)
deriving DecidableEq

/-- Total fungible amount for a faucet id across all notes. -/
def notesAmount : List (List Asset) → Word → Nat
  | [], _ => 0
  | ns :: rest, f => vaultAmount ns f + notesAmount rest f

/-- Total fungible amount for a faucet id across the vault and all notes. -/
def totalAmount (st : WalletState) (f : Word) : Nat :=
  vaultAmount st.vault f + notesAmount st.notes f

/-- Modelled from the spec: `add_asset_to_note` of section 6 — attaches an
asset to the note referenced by `note_idx`; aborts when no such note exists.
The primitive itself is `miden::tx::add_asset_to_note` of the miden SDK, not
in this repository. -/
def add_asset_to_note (st : WalletState) (a : Asset) (note_idx : Nat) :
    Option WalletState :=
  match st.notes[note_idx]? with
  | none => none
  | some ns => some { st with notes := st.notes.set note_idx (ns ++ [a]) }

/-- From `basic-wallet/src/lib.rs` lines 39-41: `receive_asset` adds the
asset to the account's vault via `miden::account::add_asset`. -/
def receive_asset (v : List Asset) (a : Asset) : List Asset :=
  add_asset v a

/-- From `basic-wallet/src/lib.rs` lines 51-54: `move_asset_to_note` removes
the asset from the account (`miden::account::remove_asset`) and adds the
returned asset to the note (`miden::tx::add_asset_to_note`). -/
def move_asset_to_note (st : WalletState) (asset : Asset) (note_idx : Nat) :
    Option WalletState :=
  match remove_asset st.vault asset with
  | none => none
  | some (asset', vault') =>
      add_asset_to_note { st with vault := vault' } asset' note_idx

/-- A sequence of `move_asset_to_note` calls within one execution; any abort
aborts the whole execution. -/
def moveSeq (st : WalletState) : List (Asset × Nat) → Option WalletState
  | [] => some st
  | (a, idx) :: rest =>
      match move_asset_to_note st a idx with
      | none => none
      | some st' => moveSeq st' rest

/-! ## The p2id note script (`p2id-note/src/lib.rs`) -/

/-- An account identity, split into its two field elements.  The source
names the fields `prefix` and `suffix` (`account_id.prefix`,
`account_id.suffix`); they are shortened here. -/
structure AccountId where
  pre : Felt
  suf : Felt
deriving DecidableEq

/-- The environment a p2id note-script execution reads: the note's inputs
and attached assets, plus the executing account's identity and vault. -/
structure P2idEnv where
  inputs : List Felt
  assets : List Asset
  accountId : AccountId
  vault : List Asset
deriving DecidableEq

inductive P2idErr where
  | outOfBounds
  | identityMismatch
deriving DecidableEq

/-- Observable capability invocations of a p2id run: each successful
`receive_asset` call. -/
inductive P2idEvent where
  | received (a : Asset)
deriving DecidableEq

/-- From `p2id-note/src/lib.rs` lines 33-44: read the note inputs, compare
`inputs[0]`/`inputs[1]` against the executing account's identity
(`assert_eq` aborts on mismatch), then invoke `receive_asset` for each
asset attached to the note.  The public argument `_arg` is unused, exactly
as in the source. -/
def p2idRun (_arg : Word) (env : P2idEnv) :
    List P2idEvent × Except P2idErr (List Asset) :=
  match env.inputs[0]?, env.inputs[1]? with
  | some targetPre, some targetSuf =>
      if env.accountId.pre = targetPre then
        if env.accountId.suf = targetSuf then
          (env.assets.map .received, .ok (env.assets.foldl receive_asset env.vault))
        else ([], .error .identityMismatch)
      else ([], .error .identityMismatch)
  | _, _ => ([], .error .outOfBounds)

/-! ## The counter contract (`counter-contract/src/lib.rs`) -/

/-- Modelled from the spec: the storage-map capability of section 4.7 — a
single slot holding a key→value map.  `StorageMap::get`/`set` are miden SDK
primitives, not in this repository. -/
def Storage : Type := Word → Felt

def storageGet (s : Storage) (k : Word) : Felt := s k

def storageSet (s : Storage) (k : Word) (v : Felt) : Storage :=
  fun k' => if k' = k then v else s k'

/-- The fixed key for the counter value, from `counter-contract/src/lib.rs`
line 42: `Word::from([felt!(0), felt!(0), felt!(0), felt!(1)])`. -/
def counterKey : Word := ⟨0, 0, 0, 1⟩

/-- From `counter-contract/src/lib.rs` lines 38-45: read the value at the
fixed key. -/
def get_count (s : Storage) : Felt :=
  storageGet s counterKey

/-- `get_count` as a state-passing operation: a storage read leaves the
storage unchanged. -/
def get_count_op (s : Storage) : Felt × Storage :=
  (storageGet s counterKey, s)

/-- From `counter-contract/src/lib.rs` lines 48-60: read the current value,
add one, write the new value back at the same key, return it. -/
def increment_count (s : Storage) : Felt × Storage :=
  let current_value := storageGet s counterKey
  let new_value := current_value + 1
  (new_value, storageSet s counterKey new_value)

/-- From `counter-contract-note/src/lib.rs` lines 31-37: read the count,
increment, and `assert_eq` that a fresh read equals the old value plus one. -/
def counterNoteRun (_arg : Word) (s : Storage) : Except Unit Storage :=
  let initial_value := get_count s
  let s' := (increment_count s).2
  let expected_value := initial_value + 1
  let final_value := get_count s'
  if final_value = expected_value then .ok s' else .error ()

/-! ## The transaction script (`basic-wallet-tx-script/src/lib.rs`) -/

/-- Note type enum of spec section 3: {Public, Private, Encrypted}. -/
inductive NoteType where
  | Public
  | Private
  | Encrypted
deriving DecidableEq

/-- Modelled from the spec: the recognized `note_type` codes (section 4.3
step 4 rejects unrecognized codes).  The `Felt → NoteType` conversion invoked
by `note_type.into()` lives in the miden SDK, not in this repository; the
concrete code assignment Public = 1, Private = 2, Encrypted = 3 is fixed here
for the model. -/
def noteTypeOfFelt (f : Felt) : Option NoteType :=
  if f = 1 then some .Public
  else if f = 2 then some .Private
  else if f = 3 then some .Encrypted
  else none

/-- Modelled from the spec: the recognized `execution_hint` codes; the note
factory re-validates metadata fields as a safety net (section 4.4) and rejects
values outside the recognized set.  The validation lives in
`miden::tx::create_note` of the miden SDK, not in this repository; the model
recognizes the codes 0, 1 and 2. -/
def executionHintOk (f : Felt) : Bool :=
  decide (f = 0) || decide (f = 1) || decide (f = 2)

/-- Modelled from the spec: `create_note` of section 4.4 — returns an opaque
handle valid within the current execution (handles are allocated in order, so
uniqueness per execution holds) and validates that metadata fields are within
their recognized enum ranges, aborting otherwise.  The primitive itself is
`miden::tx::create_note` of the miden SDK, not in this repository. -/
def create_note (st : WalletState) (_tag _aux : Felt) (_nt : NoteType)
    (hint : Felt) (_recipient : Word) : Option (Nat × WalletState) :=
  if executionHintOk hint then
    some (st.notes.length, { st with notes := st.notes ++ [[]] })
  else none

/-- Four consecutive elements of a list read as a `Word`, as the slice
expressions `input[start..start+4].try_into().unwrap()` do; `none` when the
list is too short (the Rust code panics there). -/
def wordOfSlice (l : List Felt) (start : Nat) : Option Word :=
  match l[start]?, l[start + 1]?, l[start + 2]?, l[start + 3]? with
  | some a, some b, some c, some d => some ⟨a, b, c, d⟩
  | _, _, _, _ => none

inductive TxErr where
  | absentEntry
  | alignment
  | integrity
  | outOfBounds
  | enumDecode
  | capability
deriving DecidableEq

/-- Observable environment invocations of a transaction-script run, in
program order.  `createdNote`/`movedAsset` are recorded only when the
corresponding call succeeds. -/
inductive TxEvent where
  | pushedMapValN (digest : Word) (n : Nat)
  | loadedPreimage (words : Nat) (digest : Word)
  | createdNote (idx : Nat)
  | movedAsset (a : Asset) (idx : Nat)
deriving DecidableEq

/-- From `basic-wallet-tx-script/src/lib.rs` lines 42-63, step for step:
`adv_push_mapvaln(arg)` to get the stored element count, `assert_eq` that it
is a multiple of 4, `adv_load_preimage(num_felts / 4, arg)`, reads at the
fixed offsets (tag, aux, note_type, execution_hint, recipient slice),
`create_note` (with `note_type.into()` converting the raw code), the asset
slice, and finally `basic_wallet::move_asset_to_note`.  `H` stands for the
Rpo256 hash and `assetOfWord` for the SDK's `[Felt; 4] → Asset` conversion,
both external to the repository.  The run is split into the phase after the
preimage load (`txScriptAfterLoad`, lines 49-62 of the source: offset reads,
note creation, asset movement) and the full run (`txScriptRun`, lines 42-63),
whose trace prefixes the length query and the load. -/
def txScriptAfterLoad (assetOfWord : Word → Asset) (st : WalletState)
    (input : List Felt) : List TxEvent × Except TxErr WalletState :=
  match input[TAG_INDEX]?, input[AUX_INDEX]?, input[NOTE_TYPE_INDEX]?,
        input[EXECUTION_HINT_INDEX]?, wordOfSlice input RECIPIENT_START with
  | some tag, some aux, some note_type, some execution_hint, some recipient =>
    match noteTypeOfFelt note_type with
    | none => ([], .error .enumDecode)
    | some nt =>
      match create_note st tag aux nt execution_hint recipient with
      | none => ([], .error .enumDecode)
      | some (note_idx, st1) =>
        match wordOfSlice input ASSET_START with
        | none => ([.createdNote note_idx], .error .outOfBounds)
        | some assetWord =>
          let asset := assetOfWord assetWord
          match move_asset_to_note st1 asset note_idx with
          | none => ([.createdNote note_idx], .error .capability)
          | some st2 =>
              ([.createdNote note_idx, .movedAsset asset note_idx], .ok st2)
  | _, _, _, _, _ => ([], .error .outOfBounds)

def txScriptRun (H : List Felt → Word) (assetOfWord : Word → Asset)
    (adv : AdviceMap) (st : WalletState) (arg : Word) :
    List TxEvent × Except TxErr WalletState :=
  match adv_push_mapvaln adv arg with
  | none => ([], .error .absentEntry)
  | some num_felts =>
    if num_felts % 4 ≠ 0 then ([.pushedMapValN arg num_felts], .error .alignment)
    else
      let num_words := num_felts / 4
      let ev1 : List TxEvent :=
        [.pushedMapValN arg num_felts, .loadedPreimage num_words arg]
      match adv_load_preimage H adv num_words arg with
      | none => (ev1, .error .integrity)
      | some input =>
        let res := txScriptAfterLoad assetOfWord st input
        (ev1 ++ res.1, res.2)

/-! ## The host-side commitment builder (`scripts/src/wallet.rs`) -/

/-- What `send_asset_to_account` contributes to the transaction request: the
advice-map entry and the public script argument. -/
structure HostCommitment where
  adviceKey : Word
  adviceVal : List Felt
  scriptArg : Word
deriving DecidableEq

/-- From `scripts/src/wallet.rs` lines 177-204: build
`input = [tag, aux, note_type, execution_hint] ++ recipient_digest ++ asset`,
compute `commitment = Rpo256::hash_elements(&input)`, insert
`(commitment ↦ input)` into the advice map, then `commitment.reverse()` and
pass the reversed word as the script argument. -/
def send_asset_prepare (H : List Felt → Word) (p : NoteParameters) :
    HostCommitment :=
  let input := encodeParams p
  let commitment := H input
  { adviceKey := commitment, adviceVal := input, scriptArg := commitment.reverse }

/-! ## Concrete demonstration values, used by the witness theorems -/

deriving instance DecidableEq for Except

/-- A small concrete stand-in for the Rpo256 hash, used only to instantiate
the hash parameter in witness theorems: it sums the elements and records the
length, so altering one element changes the digest. -/
def demoHash : List Felt → Word :=
  fun l => ⟨l.foldl (· + ·) 0, (l.length : Felt), 3, 7⟩

def demoParams : NoteParameters :=
  ⟨7, 0, 1, 1, ⟨10, 11, 12, 13⟩, ⟨20, 0, 21, 22⟩⟩

def demoDigest : Word := demoHash (encodeParams demoParams)

def demoAdv : AdviceMap := [(demoDigest, encodeParams demoParams)]

def demoFaucet : Word := ⟨5, 5, 5, 5⟩

def demoSt : WalletState := ⟨[.fungible demoFaucet 5], [[]]⟩

def demoAow : Word → Asset := fun _ => .fungible demoFaucet 3

def tamperDigest : Word := demoHash [1, 2, 3, 4]

def tamperAdv : AdviceMap := [(tamperDigest, [5, 2, 3, 4])]

def badLenDigest : Word := ⟨9, 9, 9, 9⟩

def badLenAdv : AdviceMap := [(badLenDigest, [1, 2, 3, 4, 5])]

def badEnumPre : List Felt := [7, 0, 9, 1, 10, 11, 12, 13, 20, 0, 21, 22]

def badEnumDigest : Word := demoHash badEnumPre

def badEnumAdv : AdviceMap := [(badEnumDigest, badEnumPre)]

def demoP2idEnv : P2idEnv :=
  ⟨[1, 2], [.fungible demoFaucet 3], ⟨1, 3⟩, []⟩

/-! ## Helper lemmas about the vault operations -/

theorem vaultAmount_append (l₁ l₂ : List Asset) (g : Word) :
    vaultAmount (l₁ ++ l₂) g = vaultAmount l₁ g + vaultAmount l₂ g := by
  induction l₁ with
  | nil => simp [vaultAmount]
  | cons a rest ih => simp [vaultAmount, ih]; omega

theorem removeFungible_spec (v : List Asset) (f : Word) (amt : Nat)
    (v' : List Asset) (h : removeFungible v f amt = some v') :
    amt ≤ vaultAmount v f ∧
      ∀ g, vaultAmount v g = vaultAmount v' g + Asset.amountOf (.fungible f amt) g := by
  induction v generalizing v' with
  | nil => simp [removeFungible] at h
  | cons a rest ih =>
    cases a with
    | fungible gg aa =>
      by_cases hgf : gg = f
      · subst hgf
        rw [removeFungible, if_pos rfl] at h
        by_cases hle : amt ≤ aa
        · rw [if_pos hle] at h
          obtain rfl := Option.some.inj h
          refine ⟨by simp [vaultAmount, Asset.amountOf]; omega, fun g => ?_⟩
          simp only [vaultAmount, Asset.amountOf]
          by_cases hg : gg = g <;> simp [hg] <;> omega
        · rw [if_neg hle] at h; cases h
      · rw [removeFungible, if_neg hgf] at h
        obtain ⟨w, hw, rfl⟩ := Option.map_eq_some'.mp h
        obtain ⟨h1, h2⟩ := ih w hw
        refine ⟨?_, fun g => ?_⟩
        · simp only [vaultAmount, Asset.amountOf, if_neg hgf]; omega
        · have := h2 g
          simp only [vaultAmount, Asset.amountOf] at *
          omega
    | nonFungible i d =>
      have hdef : removeFungible (Asset.nonFungible i d :: rest) f amt
          = (removeFungible rest f amt).map (Asset.nonFungible i d :: ·) := rfl
      rw [hdef] at h
      obtain ⟨w, hw, rfl⟩ := Option.map_eq_some'.mp h
      obtain ⟨h1, h2⟩ := ih w hw
      refine ⟨?_, fun g => ?_⟩
      · simp only [vaultAmount, Asset.amountOf]; omega
      · have := h2 g
        simp only [vaultAmount, Asset.amountOf] at *
        omega

theorem removeNonFungible_amount (v : List Asset) (i d : Word)
    (v' : List Asset) (h : removeNonFungible v i d = some v') :
    ∀ g, vaultAmount v g = vaultAmount v' g := by
  induction v generalizing v' with
  | nil => simp [removeNonFungible] at h
  | cons a rest ih =>
    cases a with
    | fungible gg aa =>
      have hdef : removeNonFungible (Asset.fungible gg aa :: rest) i d
          = (removeNonFungible rest i d).map (Asset.fungible gg aa :: ·) := rfl
      rw [hdef] at h
      obtain ⟨w, hw, rfl⟩ := Option.map_eq_some'.mp h
      intro g
      have := ih w hw g
      simp only [vaultAmount] at *
      omega
    | nonFungible ii dd =>
      rw [removeNonFungible] at h
      by_cases hid : ii = i ∧ dd = d
      · rw [if_pos hid] at h
        obtain rfl := Option.some.inj h
        intro g
        simp [vaultAmount, Asset.amountOf]
      · rw [if_neg hid] at h
        obtain ⟨w, hw, rfl⟩ := Option.map_eq_some'.mp h
        intro g
        have := ih w hw g
        simp only [vaultAmount, Asset.amountOf] at *
        omega

theorem remove_asset_spec (v : List Asset) (a a' : Asset) (v' : List Asset)
    (h : remove_asset v a = some (a', v')) :
    a' = a ∧ ∀ g, vaultAmount v g = vaultAmount v' g + a.amountOf g := by
  cases a with
  | fungible f amt =>
    rw [remove_asset] at h
    obtain ⟨w, hw, hpair⟩ := Option.map_eq_some'.mp h
    injection hpair with h1 h2
    subst h1; subst h2
    exact ⟨rfl, (removeFungible_spec _ _ _ _ hw).2⟩
  | nonFungible i d =>
    rw [remove_asset] at h
    obtain ⟨w, hw, hpair⟩ := Option.map_eq_some'.mp h
    injection hpair with h1 h2
    subst h1; subst h2
    refine ⟨rfl, fun g => ?_⟩
    have := removeNonFungible_amount _ _ _ _ hw g
    simp only [Asset.amountOf]
    omega

theorem notesAmount_set (ns : List (List Asset)) (idx : Nat) (cur : List Asset)
    (a : Asset) (g : Word) (h : ns[idx]? = some cur) :
    notesAmount (ns.set idx (cur ++ [a])) g = notesAmount ns g + a.amountOf g := by
  induction ns generalizing idx with
  | nil => simp at h
  | cons hd tl ih =>
    cases idx with
    | zero =>
      simp only [List.getElem?_cons_zero, Option.some.injEq] at h
      subst h
      simp only [List.set, notesAmount, vaultAmount_append, vaultAmount]
      omega
    | succ m =>
      simp only [List.getElem?_cons_succ] at h
      simp only [List.set, notesAmount, ih m h]
      omega

theorem add_asset_to_note_spec (st : WalletState) (a : Asset) (idx : Nat)
    (st' : WalletState) (h : add_asset_to_note st a idx = some st') :
    st'.vault = st.vault ∧
      ∀ g, notesAmount st'.notes g = notesAmount st.notes g + a.amountOf g := by
  unfold add_asset_to_note at h
  cases hn : st.notes[idx]? with
  | none => rw [hn] at h; cases h
  | some cur =>
    rw [hn] at h
    obtain rfl := Option.some.inj h
    exact ⟨rfl, fun g => notesAmount_set _ _ _ _ _ hn⟩

theorem move_asset_to_note_total (st : WalletState) (a : Asset) (idx : Nat)
    (st' : WalletState) (h : move_asset_to_note st a idx = some st') (g : Word) :
    totalAmount st' g = totalAmount st g := by
  unfold move_asset_to_note at h
  cases hr : remove_asset st.vault a with
  | none => rw [hr] at h; cases h
  | some p =>
    obtain ⟨a', v'⟩ := p
    rw [hr] at h
    obtain ⟨rfl, hv⟩ := remove_asset_spec _ _ _ _ hr
    obtain ⟨hvault, hnotes⟩ := add_asset_to_note_spec _ _ _ _ h
    have hvg := hv g
    have hng := hnotes g
    simp only [totalAmount, hvault]
    simp only [totalAmount] at hng ⊢
    omega

/-! ## Claim theorems -/

/-- C2: for every `NoteParameters p`, the host's canonical encoding is exactly
12 field elements in the fixed order [tag, aux, note_type, execution_hint,
recipient(4), asset(4)], and the guest's decode of that encoding at the fixed
offsets 0..12 reproduces `p` unchanged: tag at index 0, aux at 1, note_type at
2, execution_hint at 3, recipient at 4..8, asset at 8..12. -/
theorem encode_decode_roundtrip (p : NoteParameters) :
    (encodeParams p).length = 12
  ∧ decodeParams (encodeParams p) = some p
  ∧ (encodeParams p).get? TAG_INDEX = some p.tag
  ∧ (encodeParams p).get? AUX_INDEX = some p.aux
  ∧ (encodeParams p).get? NOTE_TYPE_INDEX = some p.note_type
  ∧ (encodeParams p).get? EXECUTION_HINT_INDEX = some p.execution_hint
  ∧ wordOfSlice (encodeParams p) RECIPIENT_START = some p.recipient
  ∧ wordOfSlice (encodeParams p) ASSET_START = some p.asset := by
  obtain ⟨t, a, nt, eh, ⟨r0, r1, r2, r3⟩, ⟨a0, a1, a2, a3⟩⟩ := p
  exact ⟨rfl, rfl, rfl, rfl, rfl, rfl, rfl, rfl⟩

/-- C10: the p2id note script's `run` ignores its public Word argument
entirely: for any two argument words and the same environment (note inputs,
note assets, account identity and vault), the execution is identical. -/
theorem p2idRun_ignores_arg (a1 a2 : Word) (env : P2idEnv) :
    p2idRun a1 env = p2idRun a2 env := rfl

/-- C9: for every storage state, `increment_count` reads the value at the
fixed key [0,0,0,1], writes back that value plus `FieldElement(1)` at the same
key (field addition, wrapping at the modulus with no overflow signal — at
value -1 the counter wraps to 0), and returns the new value; a subsequent
`get_count` returns the old value plus 1 (so the counter-note's internal
`assert_eq` always passes), and two consecutive `get_count` reads with no
intervening increment return identical values. -/
theorem increment_count_spec (s : Storage) (arg : Word) :
    (increment_count s).1 = get_count s + 1
  ∧ get_count (increment_count s).2 = get_count s + 1
  ∧ (increment_count s).2 = storageSet s counterKey (get_count s + 1)
  ∧ (get_count_op (get_count_op s).2).1 = (get_count_op s).1
  ∧ counterNoteRun arg s = .ok (increment_count s).2
  ∧ (increment_count (storageSet s counterKey (-1))).1 = 0 := by
  refine ⟨rfl, ?_, rfl, rfl, ?_, ?_⟩
  · simp [get_count, increment_count, storageGet, storageSet]
  · simp [counterNoteRun, get_count, increment_count, storageGet, storageSet]
  · simp [increment_count, storageGet, storageSet]

/-- C1: any value returned by `adv_load_preimage` hashes back to the claimed
digest and has length `words * 4` (no decoded value is ever produced from an
unauthenticated preimage); and storing, under the original digest, a preimage
altered at one position whose hash therefore differs aborts the load. -/
theorem adv_load_preimage_authenticated (H : List Felt → Word) (adv : AdviceMap)
    (words : Nat) (digest : Word) :
    (∀ l, adv_load_preimage H adv words digest = some l →
        H l = digest ∧ l.length = words * 4)
  ∧ (∀ pre i c, pre.length = words * 4 →
        adviceGet adv digest = some (pre.set i c) →
        H pre = digest → H (pre.set i c) ≠ H pre →
        adv_load_preimage H adv words digest = none) := by
  constructor
  · intro l hl
    unfold adv_load_preimage at hl
    cases hg : adviceGet adv digest with
    | none => rw [hg] at hl; cases hl
    | some stored =>
      rw [hg] at hl
      simp only at hl
      split at hl
      · obtain rfl := Option.some.inj hl
        rename_i hcond
        exact ⟨hcond.2, hcond.1⟩
      · cases hl
  · intro pre i c hlen hg hyes hno
    unfold adv_load_preimage
    rw [hg]
    simp only
    have hsl : (pre.set i c).length = words * 4 := by
      rw [List.length_set]; exact hlen
    have htake : (pre.set i c).take (words * 4) = pre.set i c := by
      rw [← hsl, List.take_length]
    rw [htake, if_neg]
    intro hcond
    exact hno (hcond.2.trans hyes.symm)

/-- C1 witness: a concrete advice channel stores, under the digest of
[1,2,3,4], that preimage altered at position 0; the load aborts. -/
theorem adv_load_preimage_authenticated_witness :
    adviceGet tamperAdv tamperDigest = some (([1, 2, 3, 4] : List Felt).set 0 5)
  ∧ adv_load_preimage demoHash tamperAdv 1 tamperDigest = none :=
  ⟨by decide,
   (adv_load_preimage_authenticated demoHash tamperAdv 1 tamperDigest).2
     [1, 2, 3, 4] 0 5 (by decide) (by decide) (by decide) (by decide)⟩

/-- C6: `move_asset_to_note` is exactly `remove_asset` followed by attaching
the returned asset to the referenced note: it aborts precisely when the
removal aborts or the note handle is invalid (in particular whenever the
vault's fungible holdings for the faucet are insufficient), leaving no
observable effect, and on success it attaches exactly the asset returned by
the removal to the note, the vault having already been shrunk. -/
theorem move_asset_to_note_spec (st : WalletState) (a : Asset) (idx : Nat) :
    (move_asset_to_note st a idx = none ↔
        remove_asset st.vault a = none ∨ st.notes[idx]? = none)
  ∧ (∀ a' v', remove_asset st.vault a = some (a', v') →
        a' = a ∧
        move_asset_to_note st a idx
          = add_asset_to_note { vault := v', notes := st.notes } a idx)
  ∧ (∀ f amt, vaultAmount st.vault f < amt →
        move_asset_to_note st (.fungible f amt) idx = none) := by
  refine ⟨?_, ?_, ?_⟩
  · unfold move_asset_to_note add_asset_to_note
    cases hr : remove_asset st.vault a with
    | none => simp
    | some p =>
      obtain ⟨a', v'⟩ := p
      simp only [Option.some.injEq, reduceCtorEq, false_or]
      cases hn : st.notes[idx]? with
      | none => simp
      | some cur => simp
  · intro a' v' hr
    obtain ⟨rfl, _⟩ := remove_asset_spec _ _ _ _ hr
    refine ⟨rfl, ?_⟩
    unfold move_asset_to_note
    rw [hr]
  · intro f amt hlt
    unfold move_asset_to_note
    cases hr : remove_asset st.vault (.fungible f amt) with
    | none => rfl
    | some p =>
      obtain ⟨a', v'⟩ := p
      exfalso
      have hle := (removeFungible_spec st.vault f amt v' ?_).1
      · omega
      · unfold remove_asset at hr
        obtain ⟨w, hw, hpair⟩ := Option.map_eq_some'.mp hr
        injection hpair with h1 h2
        subst h2
        exact hw

/-- C6 witness: removing 7 units from a vault holding 5 aborts the whole
move with no effect. -/
theorem move_asset_to_note_spec_witness :
    vaultAmount demoSt.vault demoFaucet < 7
  ∧ move_asset_to_note demoSt (.fungible demoFaucet 7) 0 = none :=
  ⟨by decide, (move_asset_to_note_spec demoSt (.fungible demoFaucet 7) 0).2.2
    demoFaucet 7 (by decide)⟩

/-- C5: across any sequence of `move_asset_to_note` calls within one
execution, the total fungible amount per faucet id summed over the account
vault and the notes is invariant. -/
theorem moveSeq_conserves (st : WalletState) (ops : List (Asset × Nat))
    (st' : WalletState) (f : Word) (h : moveSeq st ops = some st') :
    totalAmount st' f = totalAmount st f := by
  induction ops generalizing st with
  | nil =>
    obtain rfl := Option.some.inj h
    rfl
  | cons op rest ih =>
    obtain ⟨a, idx⟩ := op
    unfold moveSeq at h
    cases hm : move_asset_to_note st a idx with
    | none => rw [hm] at h; cases h
    | some st1 =>
      rw [hm] at h
      have h1 := move_asset_to_note_total _ _ _ _ hm f
      have h2 := ih st1 h
      omega

/-- C5 witness: moving 3 of 5 units into note 0 conserves the per-faucet
total across vault and notes. -/
theorem moveSeq_conserves_witness :
    moveSeq demoSt [(.fungible demoFaucet 3, 0)]
      = some ⟨[.fungible demoFaucet 2], [[.fungible demoFaucet 3]]⟩
  ∧ totalAmount ⟨[.fungible demoFaucet 2], [[.fungible demoFaucet 3]]⟩ demoFaucet
      = totalAmount demoSt demoFaucet :=
  ⟨by decide,
   moveSeq_conserves demoSt [(.fungible demoFaucet 3, 0)]
     ⟨[.fungible demoFaucet 2], [[.fungible demoFaucet 3]]⟩ demoFaucet (by decide)⟩

/-- C4: the p2id note script compares the note's embedded target identity
(inputs[0] as the id's first element, inputs[1] as its second) against the
executing account's identity before any asset moves: on any mismatch it
aborts with an empty event trace (zero assets received), and only when both
comparisons succeed does it invoke the asset-receiving capability exactly
once per attached asset. -/
theorem p2idRun_guard (arg : Word) (env : P2idEnv) (tPre tSuf : Felt)
    (h0 : env.inputs[0]? = some tPre) (h1 : env.inputs[1]? = some tSuf) :
    ((env.accountId.pre ≠ tPre ∨ env.accountId.suf ≠ tSuf) →
        p2idRun arg env = ([], .error .identityMismatch))
  ∧ (env.accountId.pre = tPre → env.accountId.suf = tSuf →
        p2idRun arg env
          = (env.assets.map .received, .ok (env.assets.foldl receive_asset env.vault))
        ∧ (p2idRun arg env).1.length = env.assets.length) := by
  constructor
  · intro hmis
    simp only [p2idRun, h0, h1]
    rcases hmis with h | h
    · rw [if_neg h]
    · by_cases hp : env.accountId.pre = tPre
      · rw [if_pos hp, if_neg h]
      · rw [if_neg hp]
  · intro hp hs
    constructor
    · simp only [p2idRun, h0, h1, if_pos hp, if_pos hs]
    · simp only [p2idRun, h0, h1, if_pos hp, if_pos hs, List.length_map]

/-- C4 witness: an account whose identity's second element differs from the
note's embedded target aborts with an empty trace. -/
theorem p2idRun_guard_witness :
    demoP2idEnv.inputs[0]? = some 1
  ∧ demoP2idEnv.inputs[1]? = some 2
  ∧ p2idRun ⟨0, 0, 0, 0⟩ demoP2idEnv = ([], .error .identityMismatch) :=
  ⟨by decide, by decide,
   (p2idRun_guard ⟨0, 0, 0, 0⟩ demoP2idEnv 1 2 (by decide) (by decide)).1
     (Or.inr (by decide))⟩

theorem txScriptAfterLoad_events (aow : Word → Asset) (st : WalletState)
    (input : List Felt) :
    ∀ e ∈ (txScriptAfterLoad aow st input).1,
      (∃ i, e = TxEvent.createdNote i) ∨ ∃ a i, e = TxEvent.movedAsset a i := by
  intro e he
  unfold txScriptAfterLoad at he
  dsimp only at he
  repeat' split at he
  all_goals dsimp only at he
  all_goals simp only [List.mem_cons, List.not_mem_nil, or_false] at he
  · exact Or.inl ⟨_, he⟩
  · exact Or.inl ⟨_, he⟩
  · rcases he with h | h
    · exact Or.inl ⟨_, h⟩
    · exact Or.inr ⟨_, _, h⟩

/-- The three possible shapes of a transaction-script run: advice entry
absent (empty trace); misaligned length (the trace stops at the length
query); or aligned, in which case the trace is the length query on the
argument digest, the preimage load of `n / 4` words on the argument digest,
and then only note-creation/asset-movement events. -/
theorem txScriptRun_shape (H : List Felt → Word) (aow : Word → Asset)
    (adv : AdviceMap) (st : WalletState) (arg : Word) :
    (adv_push_mapvaln adv arg = none ∧
        txScriptRun H aow adv st arg = ([], .error .absentEntry))
  ∨ (∃ n, adv_push_mapvaln adv arg = some n ∧ n % 4 ≠ 0 ∧
        txScriptRun H aow adv st arg = ([.pushedMapValN arg n], .error .alignment))
  ∨ (∃ n tail r, adv_push_mapvaln adv arg = some n ∧ n % 4 = 0 ∧
        txScriptRun H aow adv st arg
          = ([.pushedMapValN arg n, .loadedPreimage (n / 4) arg] ++ tail, r) ∧
        ∀ e ∈ tail,
          (∃ i, e = TxEvent.createdNote i) ∨ ∃ a i, e = TxEvent.movedAsset a i) := by
  unfold txScriptRun
  cases hlen : adv_push_mapvaln adv arg with
  | none => exact Or.inl ⟨rfl, rfl⟩
  | some n =>
    dsimp only
    by_cases h4 : n % 4 = 0
    · refine Or.inr (Or.inr ?_)
      rw [if_neg (not_not_intro h4)]
      cases hload : adv_load_preimage H adv (n / 4) arg with
      | none =>
        exact ⟨n, [], .error .integrity, rfl, h4, by simp, by simp⟩
      | some input =>
        exact ⟨n, (txScriptAfterLoad aow st input).1,
          (txScriptAfterLoad aow st input).2, rfl, h4, rfl,
          txScriptAfterLoad_events aow st input⟩
    · exact Or.inr (Or.inl ⟨n, rfl, h4, by rw [if_pos h4]⟩)

/-- C3: with `n` the element count the advice channel reports under the
argument digest, the run aborts with an alignment violation when
`n mod 4 ≠ 0`, its trace then ending at the length query — no preimage load
or decode is attempted; when `n mod 4 = 0`, the preimage load is requested
with exactly `n / 4` words (and every load in the trace uses `n / 4` words
and the argument digest). -/
theorem txScriptRun_alignment (H : List Felt → Word) (aow : Word → Asset)
    (adv : AdviceMap) (st : WalletState) (arg : Word) (n : Nat)
    (hlen : adv_push_mapvaln adv arg = some n) :
    (n % 4 ≠ 0 →
        txScriptRun H aow adv st arg = ([.pushedMapValN arg n], .error .alignment))
  ∧ (n % 4 = 0 →
        TxEvent.loadedPreimage (n / 4) arg ∈ (txScriptRun H aow adv st arg).1
      ∧ ∀ w d, TxEvent.loadedPreimage w d ∈ (txScriptRun H aow adv st arg).1 →
          w = n / 4 ∧ d = arg) := by
  rcases txScriptRun_shape H aow adv st arg with
    ⟨h1, _⟩ | ⟨m, hm, hm4, hout⟩ | ⟨m, tail, r, hm, hm4, hout, hchar⟩
  · rw [h1] at hlen; cases hlen
  · obtain rfl : m = n := Option.some.inj (hm.symm.trans hlen)
    exact ⟨fun _ => hout, fun h => absurd h hm4⟩
  · obtain rfl : m = n := Option.some.inj (hm.symm.trans hlen)
    refine ⟨fun hne => absurd hm4 hne, fun _ => ⟨?_, ?_⟩⟩
    · rw [hout]; simp
    · intro w d hmem
      rw [hout] at hmem
      simp only [List.cons_append, List.nil_append, List.mem_cons] at hmem
      rcases hmem with h | h | h
      · cases h
      · injection h with hw hd
        exact ⟨hw, hd⟩
      · rcases hchar _ h with ⟨i, hi⟩ | ⟨a, i, hi⟩ <;> cases hi

/-- C3 witness: an advice entry of 5 elements (5 mod 4 ≠ 0) aborts with an
alignment violation, the trace stopping at the length query. -/
theorem txScriptRun_alignment_witness :
    adv_push_mapvaln badLenAdv badLenDigest = some 5
  ∧ txScriptRun demoHash demoAow badLenAdv demoSt badLenDigest
      = ([.pushedMapValN badLenDigest 5], .error .alignment) :=
  ⟨by decide,
   (txScriptRun_alignment demoHash demoAow badLenAdv demoSt badLenDigest 5
     (by decide)).1 (by decide)⟩

/-- C7: the host builder keys the advice map by the canonical (unreversed)
digest of the canonical encoding, and supplies as the public argument that
digest with its elements reversed (so reversing the argument recovers the
advice key); the guest uses its one Word argument unmodified as the digest
for both the length query and the preimage load. -/
theorem commitment_argument_convention (H : List Felt → Word)
    (p : NoteParameters) (aow : Word → Asset) (adv : AdviceMap)
    (st : WalletState) (arg : Word) :
    (send_asset_prepare H p).adviceKey = H (encodeParams p)
  ∧ (send_asset_prepare H p).adviceVal = encodeParams p
  ∧ (send_asset_prepare H p).scriptArg = (H (encodeParams p)).reverse
  ∧ (send_asset_prepare H p).scriptArg.reverse = (send_asset_prepare H p).adviceKey
  ∧ (∀ d m, TxEvent.pushedMapValN d m ∈ (txScriptRun H aow adv st arg).1 → d = arg)
  ∧ (∀ w d, TxEvent.loadedPreimage w d ∈ (txScriptRun H aow adv st arg).1 → d = arg) := by
  refine ⟨rfl, rfl, rfl, rfl, ?_, ?_⟩
  all_goals
    rcases txScriptRun_shape H aow adv st arg with
      ⟨_, hout⟩ | ⟨n, _, _, hout⟩ | ⟨n, tail, r, _, _, hout, hchar⟩
  · intro d m hmem; rw [hout] at hmem; cases hmem
  · intro d m hmem
    rw [hout] at hmem
    simp only [List.mem_singleton] at hmem
    injection hmem
  · intro d m hmem
    rw [hout] at hmem
    simp only [List.cons_append, List.nil_append, List.mem_cons] at hmem
    rcases hmem with h | h | h
    · injection h
    · cases h
    · rcases hchar _ h with ⟨i, hi⟩ | ⟨a, i, hi⟩ <;> cases hi
  · intro w d hmem; rw [hout] at hmem; cases hmem
  · intro w d hmem
    rw [hout] at hmem
    simp only [List.mem_singleton] at hmem
    cases hmem
  · intro w d hmem
    rw [hout] at hmem
    simp only [List.cons_append, List.nil_append, List.mem_cons] at hmem
    rcases hmem with h | h | h
    · cases h
    · injection h
    · rcases hchar _ h with ⟨i, hi⟩ | ⟨a, i, hi⟩ <;> cases hi

/-- C7 witness: on the demo parameters the host's advice key is the digest of
the encoding, the script argument is its reversal, and the guest's length
query in a successful demo run carries the argument digest. -/
theorem commitment_argument_convention_witness :
    (send_asset_prepare demoHash demoParams).scriptArg.reverse
      = (send_asset_prepare demoHash demoParams).adviceKey
  ∧ TxEvent.pushedMapValN demoDigest 12
      ∈ (txScriptRun demoHash demoAow demoAdv demoSt demoDigest).1
  ∧ demoDigest = demoDigest :=
  ⟨(commitment_argument_convention demoHash demoParams demoAow demoAdv demoSt
      demoDigest).2.2.2.1,
   by decide,
   (commitment_argument_convention demoHash demoParams demoAow demoAdv demoSt
      demoDigest).2.2.2.2.1 demoDigest 12 (by decide)⟩

/-- C8: for every aligned, authenticated advice preimage whose element at
offset 2 is not a recognized note_type code or whose element at offset 3 is
not a recognized execution_hint code, the transaction-script run aborts with
an enum-decode error, its trace containing no note-creation (and no
asset-movement) event: no note is created. -/
theorem txScriptRun_enum_reject (H : List Felt → Word) (aow : Word → Asset)
    (adv : AdviceMap) (st : WalletState) (arg : Word) (pre : List Felt)
    (t0 t1 nt2 eh3 : Felt) (r : Word)
    (hget : adviceGet adv arg = some pre)
    (h4 : pre.length % 4 = 0)
    (hH : H pre = arg)
    (h0 : pre[TAG_INDEX]? = some t0)
    (h1 : pre[AUX_INDEX]? = some t1)
    (h2 : pre[NOTE_TYPE_INDEX]? = some nt2)
    (h3 : pre[EXECUTION_HINT_INDEX]? = some eh3)
    (hr : wordOfSlice pre RECIPIENT_START = some r)
    (hbad : noteTypeOfFelt nt2 = none ∨ executionHintOk eh3 = false) :
    txScriptRun H aow adv st arg
      = ([.pushedMapValN arg pre.length, .loadedPreimage (pre.length / 4) arg],
         .error .enumDecode) := by
  have hlen : adv_push_mapvaln adv arg = some pre.length := by
    unfold adv_push_mapvaln; rw [hget]; rfl
  have hdvd : pre.length / 4 * 4 = pre.length :=
    Nat.div_mul_cancel (Nat.dvd_of_mod_eq_zero h4)
  have hload : adv_load_preimage H adv (pre.length / 4) arg = some pre := by
    unfold adv_load_preimage
    rw [hget]
    dsimp only
    rw [hdvd, List.take_length, if_pos ⟨rfl, hH⟩]
  have hAL : txScriptAfterLoad aow st pre = ([], .error .enumDecode) := by
    unfold txScriptAfterLoad
    rw [h0, h1, h2, h3, hr]
    dsimp only
    rcases hbad with hb | hb
    · rw [hb]
    · cases hnt : noteTypeOfFelt nt2 with
      | none => rfl
      | some nt =>
        dsimp only
        unfold create_note
        rw [hb]
        rfl
  unfold txScriptRun
  rw [hlen]
  dsimp only
  rw [if_neg (not_not_intro h4)]
  rw [hload]
  dsimp only
  rw [hAL]
  simp

/-- C8 witness: a stored 12-element preimage whose note_type code (offset 2)
is the unrecognized value 9 makes the run abort with an enum-decode error and
a trace without any note-creation event. -/
theorem txScriptRun_enum_reject_witness :
    adviceGet badEnumAdv badEnumDigest = some badEnumPre
  ∧ txScriptRun demoHash demoAow badEnumAdv demoSt badEnumDigest
      = ([.pushedMapValN badEnumDigest 12, .loadedPreimage 3 badEnumDigest],
         .error .enumDecode) :=
  ⟨by decide,
   txScriptRun_enum_reject demoHash demoAow badEnumAdv demoSt badEnumDigest
     badEnumPre 7 0 9 1 ⟨10, 11, 12, 13⟩ (by decide) (by decide) (by decide)
     (by decide) (by decide) (by decide) (by decide) (by decide)
     (Or.inl (by decide))⟩

end MidenDemo
